import Mathlib

/-!
Shallow embedding of the highlight/merge pipeline of the repository
(`src/app/utils/pdfHelpers.ts` and `src/app/utils/pdfHighlighter.ts`).

Conventions used throughout:
* JavaScript numbers are modelled as `ℚ`: all arithmetic the code performs on
  the values that occur (sums, differences, divisions, `Math.floor`,
  `Math.ceil`) is exact, and none of the claims concern float rounding.
* `Math.random()` is modelled as a stream `r : Nat → ℚ` of values, consumed
  left to right: one value per text item inside the chunking loop of
  `selectRandomChunks`, then one value per comparator invocation inside the
  `sort` call.  An ideal random source makes the entries independent and
  uniform on `[0,1)`.
* Byte strings are modelled as `List Nat`.
-/

/-- TextItem of `pdfHighlighter.ts` / `pdfHelpers.ts`: one positioned run of
extracted text. -/
structure TextItem where
  text : String
  x : ℚ
  y : ℚ
  width : ℚ
  height : ℚ
  pageIndex : Nat
deriving DecidableEq

/-- Helper for `countWords`: walks the character list, counting maximal runs
of non-whitespace characters; the flag records whether the previous character
was part of a word. -/
def countWordsAux : List Char → Bool → Nat
  | [], _ => 0
  | c :: cs, inWord =>
    if c.isWhitespace then countWordsAux cs false
    else (if inWord then 0 else 1) + countWordsAux cs true

/-- Word count of a single string, as `split(/\s+/).filter(Boolean).length`:
the number of maximal runs of non-whitespace characters. -/
def countWords (s : String) : Nat :=
  countWordsAux s.data false

/-- calculateWordCount: joins all item texts with single spaces and counts
words. -/
def calculateWordCount (textItems : List TextItem) : Nat :=
  countWords (String.intercalate " " (textItems.map (fun it => it.text)))

/-- Chunk-size threshold `Math.floor(Math.random() * 8) + 3`, computed from
the `i`-th value of the random stream. -/
def chunkSize (r : Nat → ℚ) (i : Nat) : ℤ :=
  ⌊r i * 8⌋ + 3

/-- Chunking loop of `selectRandomChunks` (helpers file lines 201–210,
highlighter file lines 72–81).  `i` is the loop index (also the index into
the random stream: one `Math.random()` call per iteration), `rest` the items
not yet visited, `cur` the current chunk being accumulated.  The threshold
is redrawn at every iteration, and the chunk closes when
`currentChunk.length >= chunkSize` or the last item has been consumed. -/
def chunkLoop (r : Nat → ℚ) : Nat → List TextItem → List TextItem → List (List TextItem)
  | _, [], _ => []
  | i, x :: rest, cur =>
    let cur' := cur ++ [x]
    if (cur'.length : ℤ) ≥ chunkSize r i ∨ rest = [] then
      cur' :: chunkLoop r (i + 1) rest []
    else
      chunkLoop r (i + 1) rest cur'

/-- Chunk partition produced by `selectRandomChunks`. -/
def buildChunks (r : Nat → ℚ) (textItems : List TextItem) : List (List TextItem) :=
  chunkLoop r 0 textItems []

/-- Modelled from the spec: the chunking `selectRandomChunks` is claimed to
perform, with the threshold drawn once per chunk (when the chunk starts)
rather than once per fragment.  `c` is the number of chunks already closed:
the `c`-th chunk uses the single draw `chunkSize r c`. -/
def specChunkLoop (r : Nat → ℚ) : Nat → List TextItem → List TextItem → List (List TextItem)
  | _, [], _ => []
  | c, x :: rest, cur =>
    let cur' := cur ++ [x]
    if (cur'.length : ℤ) ≥ chunkSize r c ∨ rest = [] then
      cur' :: specChunkLoop r (c + 1) rest []
    else
      specChunkLoop r c rest cur'

/-- Modelled from the spec: chunk partition with one threshold draw per
chunk. -/
def specBuildChunks (r : Nat → ℚ) (textItems : List TextItem) : List (List TextItem) :=
  specChunkLoop r 0 textItems []

/-- Sign of one call of the comparator `() => Math.random() - 0.5` passed to
`Array.prototype.sort`, as the engine's sort consumes it: `true` when the
returned value is positive (the compared prefix element is shifted past the
element being inserted). -/
def sortCmpCoin (r : Nat → ℚ) (k : Nat) : Bool :=
  decide (r k - 1/2 > 0)

/-- One insertion step of the engine's insertion sort (V8 sorts short arrays
by insertion sort; with an inconsistent comparator the result is an
implementation-defined permutation of the input, which this models).  The
already-sorted entries are kept reversed (`acc` head = rightmost element);
`x` is the element being inserted, `k` the index of the next random value.
Scanning from the right, an entry `y` is shifted past `x` exactly when the
comparator call `cmp(y, x)` returns a positive value. -/
def insRev (r : Nat → ℚ) (x : Nat) : List Nat → Nat → List Nat × Nat
  | [], k => ([x], k)
  | y :: ys, k =>
    if sortCmpCoin r k then
      let p := insRev r x ys (k + 1)
      (y :: p.1, p.2)
    else
      (x :: y :: ys, k + 1)

/-- Main loop of the insertion sort: `acc` is the reversed sorted part,
the second list the elements still to insert, `k` the next random index. -/
def sortLoop (r : Nat → ℚ) : List Nat → List Nat → Nat → List Nat
  | acc, [], _ => acc.reverse
  | acc, x :: rest, k =>
    let p := insRev r x acc k
    sortLoop r p.1 rest p.2

/-- Model of `array.sort(() => Math.random() - 0.5)`: the shuffle used on the
chunk indices.  `off` is the index into the random stream at which the
comparator starts drawing (inside `selectRandomChunks` the chunking loop has
already consumed one value per text item). -/
def jsSortRand (r : Nat → ℚ) (off : Nat) (l : List Nat) : List Nat :=
  sortLoop r [] l off

/-- Twin of `insRev` over an explicit stream of comparator signs; used to
evaluate concrete runs and to count outcomes over the sign patterns. -/
def insRevB (s : Nat → Bool) (x : Nat) : List Nat → Nat → List Nat × Nat
  | [], k => ([x], k)
  | y :: ys, k =>
    if s k then
      let p := insRevB s x ys (k + 1)
      (y :: p.1, p.2)
    else
      (x :: y :: ys, k + 1)

/-- Twin of `sortLoop` over an explicit stream of comparator signs. -/
def sortLoopB (s : Nat → Bool) : List Nat → List Nat → Nat → List Nat
  | acc, [], _ => acc.reverse
  | acc, x :: rest, k =>
    let p := insRevB s x acc k
    sortLoopB s p.1 rest p.2

/-- Twin of `jsSortRand` over an explicit stream of comparator signs. -/
def jsSortRandB (s : Nat → Bool) (off : Nat) (l : List Nat) : List Nat :=
  sortLoopB s [] l off

/-- The `const wordsToHighlight = Math.floor((totalWords * percentage) /
100)` binding of `selectRandomChunks`. -/
def wordsToHighlightOf (textItems : List TextItem) (percentage : ℚ) : ℤ :=
  ⌊(calculateWordCount textItems : ℚ) * percentage / 100⌋

/-- The `const avgWordsPerChunk = totalWords / chunks.length` binding. -/
def avgWordsPerChunk (r : Nat → ℚ) (textItems : List TextItem) : ℚ :=
  (calculateWordCount textItems : ℚ) / ((buildChunks r textItems).length : ℚ)

/-- The `const chunksToHighlight = Math.ceil(wordsToHighlight /
avgWordsPerChunk)` binding. -/
def chunksToHighlightOf (r : Nat → ℚ) (textItems : List TextItem) (percentage : ℚ) : ℤ :=
  ⌈(wordsToHighlightOf textItems percentage : ℚ) / avgWordsPerChunk r textItems⌉

/-- The number of loop iterations of the selection loop,
`Math.min(chunksToHighlight, chunks.length)`. -/
def selTake (r : Nat → ℚ) (textItems : List TextItem) (percentage : ℚ) : Nat :=
  (min (chunksToHighlightOf r textItems percentage)
    (((buildChunks r textItems).length : ℤ))).toNat

/-- selectRandomChunks (helpers file lines 191–227, highlighter file lines
62–98): partitions the items into chunks, computes how many chunks are needed
to reach the word budget, shuffles the chunk indices with the random
comparator and concatenates the first `min(chunksToHighlight, chunks.length)`
chunks in shuffled order.  When `totalWords = 0` the JS code computes
`ceil(0/0) = NaN` and the selection loop does not run; here `0 / 0 = 0` in
`ℚ` gives the same empty selection. -/
def selectRandomChunks (r : Nat → ℚ) (textItems : List TextItem) (percentage : ℚ) :
    List TextItem :=
  if percentage ≤ 0 ∨ textItems = [] then [] else
    let chunks := buildChunks r textItems
    let shuffledIndices := jsSortRand r textItems.length (List.range chunks.length)
    ((shuffledIndices.take (selTake r textItems percentage)).map
      (fun i => chunks.getD i [])).flatten

/-- Translucent rectangle with fill colour and opacity, as passed to
`page.drawRectangle`. -/
structure Rect where
  x : ℚ
  y : ℚ
  width : ℚ
  height : ℚ
  red : ℚ
  green : ℚ
  blue : ℚ
  opacity : ℚ
deriving DecidableEq

/-- Page of a page-structured document: fixed dimensions plus the rectangles
drawn onto it. -/
structure Page where
  width : ℚ
  height : ℚ
  rects : List Rect
deriving DecidableEq

/-- Page-structured document: an ordered sequence of pages (the state of a
loaded pdf-lib `PDFDocument`). -/
structure PageDoc where
  pages : List Page
deriving DecidableEq

/-- Default page used for out-of-range reads (never reached on the inputs the
code indexes). -/
def defaultPage : Page := ⟨0, 0, []⟩

/-- Number of pages of a document. -/
def pagesCount (d : PageDoc) : Nat := d.pages.length

/-- Rectangles drawn on page `p`. -/
def pageRects (d : PageDoc) (p : Nat) : List Rect :=
  (d.pages.getD p defaultPage).rects

/-- Height of page `p`, as read by `page.getSize()`. -/
def pageHeightAt (d : PageDoc) (p : Nat) : ℚ :=
  (d.pages.getD p defaultPage).height

/-- Appends a rectangle to page `p` of the document. -/
def drawRectOnPage (d : PageDoc) (p : Nat) (rc : Rect) : PageDoc :=
  ⟨d.pages.set p ⟨(d.pages.getD p defaultPage).width, (d.pages.getD p defaultPage).height,
    (d.pages.getD p defaultPage).rects ++ [rc]⟩⟩

/-- Highlight rectangle drawn by `addHighlightsToPdf` of `pdfHighlighter.ts`
(lines 113–125): the extracted coordinates are treated as top-left-origin and
flipped onto the bottom-left-origin page with `y = pageHeight - item.y -
item.height`; yellow fill, opacity 0.4, no border. -/
def mkHighlightRect (pageHeight : ℚ) (it : TextItem) : Rect :=
  ⟨it.x, pageHeight - it.y - it.height, it.width, it.height, 1, 1, 0, 2/5⟩

/-- addHighlightsToPdf of `pdfHighlighter.ts` (lines 103–129): for each item
whose page index is in range, draws the flipped highlight rectangle on that
page; out-of-range items are silently skipped. -/
def addHighlightsToPdf (doc : PageDoc) (highlightItems : List TextItem) : PageDoc :=
  highlightItems.foldl
    (fun d it =>
      if d.pages.length ≤ it.pageIndex then d
      else drawRectOnPage d it.pageIndex (mkHighlightRect (pageHeightAt d it.pageIndex) it))
    doc

/-- Highlight rectangle drawn by `addHighlightsToPdf` of the helpers file
(lines 245–253): that variant extracts with pdf.js, whose y-coordinate is
already in the bottom-left-origin PDF coordinate system, so the coordinates
are used directly (with a 2-unit downward shift and 4 units of extra height
as padding); cyan fill, opacity 0.3, no border. -/
def mkHighlightRectCyan (it : TextItem) : Rect :=
  ⟨it.x, it.y - 2, it.width, it.height + 4, 0, 1, 1, 3/10⟩

/-- addHighlightsToPdf of the helpers file (lines 232–257): same loop as the
highlighter variant but drawing the unflipped, padded cyan rectangle. -/
def addHighlightsToPdfCyan (doc : PageDoc) (highlightItems : List TextItem) : PageDoc :=
  highlightItems.foldl
    (fun d it =>
      if d.pages.length ≤ it.pageIndex then d
      else drawRectOnPage d it.pageIndex (mkHighlightRectCyan it))
    doc

/-- getPageIndices: `[0, ..., pageCount - 1]`. -/
def getPageIndices (d : PageDoc) : List Nat := List.range d.pages.length

/-- copyPages: reads the pages of `d` at the given indices (copying preserves
each page's content and dimensions exactly: pages are immutable values
here). -/
def copyPages (d : PageDoc) (idxs : List Nat) : List Page :=
  idxs.map (fun i => d.pages.getD i defaultPage)

/-- addPage: appends one page to the document. -/
def addPage (d : PageDoc) (pg : Page) : PageDoc := ⟨d.pages ++ [pg]⟩

/-- mergePdfs (`pdfHelpers.ts` lines 84–103): creates an empty document,
copies all pages of the Turnitin (cover) document in order, then all pages of
the body document in order. -/
def mergePdfs (turnitinPdf documentPdf : PageDoc) : PageDoc :=
  let mergedPdf : PageDoc := ⟨[]⟩
  let mergedPdf := (copyPages turnitinPdf (getPageIndices turnitinPdf)).foldl addPage mergedPdf
  (copyPages documentPdf (getPageIndices documentPdf)).foldl addPage mergedPdf

/-- Bytes of a binary document. -/
abbrev Bytes := List Nat

/-- Environment of fallible external operations used by `highlightPdfText`
of the helpers file: `load` models `PDFDocument.load`, `extract` models the
pdf.js-based `extractTextContent`, `save` models `pdfDoc.save()`.  Each
returns `Except` so that a thrown exception is an explicit value; the
embedding of `highlightPdfText` below is therefore a total function, which is
the model of "never propagates an exception to its caller". -/
structure PdfEnv where
  load : Bytes → Except String PageDoc
  extract : Bytes → Except String (List TextItem)
  save : PageDoc → Except String Bytes

/-- Body of the outer `try` of `highlightPdfText` (helpers file lines
283–299) after the load pre-check has succeeded: extract the text items,
return the original bytes if there are none, otherwise select the random
chunks, re-load the original bytes inside `addHighlightsToPdf`, draw the
highlights and save.  An `.error` result models an exception thrown by any
step. -/
def attemptHighlight (env : PdfEnv) (r : Nat → ℚ) (pdfBytes : Bytes)
    (percentage : ℚ) : Except String Bytes := do
  let textItems ← env.extract pdfBytes
  if textItems.length = 0 then
    return pdfBytes
  else
    let itemsToHighlight := selectRandomChunks r textItems percentage
    let pdfDoc ← env.load pdfBytes
    env.save (addHighlightsToPdfCyan pdfDoc itemsToHighlight)

/-- highlightPdfText of the helpers file (lines 262–305): returns the input
bytes unchanged when `percentage <= 0`; otherwise first checks that pdf-lib
can load the bytes (inner `try`, returning the original bytes on failure),
then runs the highlight attempt, returning the original bytes if any step of
it throws (outer `catch`). -/
def highlightPdfText (env : PdfEnv) (r : Nat → ℚ) (pdfBytes : Bytes)
    (percentage : ℚ) : Bytes :=
  if percentage ≤ 0 then pdfBytes
  else
    match env.load pdfBytes with
    | .error _ => pdfBytes
    | .ok _ =>
      match attemptHighlight env r pdfBytes percentage with
      | .ok highlightedPdf => highlightedPdf
      | .error _ => pdfBytes

/-- One text-draw operation recorded by the `convertWordToPdf` model:
zero-based page index, position, text and font size. -/
structure DrawOp where
  page : Nat
  x : ℚ
  y : ℚ
  text : String
  size : ℚ
deriving DecidableEq

/-- State of the `convertWordToPdf` loop: number of pages added so far (the
last one is the current page), the vertical cursor on the current page, and
all text-draw operations performed so far. -/
structure WState where
  pages : Nat
  y : ℚ
  ops : List DrawOp
deriving DecidableEq

/-- Page and layout constants of `convertWordToPdf` (helpers file lines
19–24). -/
def pageWidth : ℚ := 595

/-- Page height constant of `convertWordToPdf`. -/
def pageHeight : ℚ := 842

/-- Margin constant of `convertWordToPdf`. -/
def margin : ℚ := 50

/-- Maximum line width of `convertWordToPdf`. -/
def maxWidth : ℚ := pageWidth - 2 * margin

/-- Line height constant of `convertWordToPdf`. -/
def lineHeight : ℚ := 14

/-- Font size constant of `convertWordToPdf`. -/
def fontSize : ℚ := 11

/-- Initial state of `convertWordToPdf`: one page, cursor at the top
margin. -/
def initWState : WState := ⟨1, pageHeight - margin, []⟩

/-- `page.drawText(text, {x: margin, y, size: fontSize, ...})`: records one
draw operation at the current cursor on the current page. -/
def drawTextOp (st : WState) (t : String) : WState :=
  ⟨st.pages, st.y, st.ops ++ [⟨st.pages - 1, margin, st.y, t, fontSize⟩]⟩

/-- `y -= lineHeight` followed by `if (y < margin) { addPage; y = pageHeight
- margin }`: the line advance and the page-break check that immediately
follows it in both places of the source. -/
def advanceCursor (st : WState) : WState :=
  let y' := st.y - lineHeight
  if y' < margin then ⟨st.pages + 1, pageHeight - margin, st.ops⟩
  else ⟨st.pages, y', st.ops⟩

/-- Standalone `if (y < margin) { addPage; ... }` check (helpers file lines
73–76), which also runs when no remaining text was drawn. -/
def pageBreakCheck (st : WState) : WState :=
  if st.y < margin then ⟨st.pages + 1, pageHeight - margin, st.ops⟩
  else st

/-- Helper for `splitChar`: walks the characters, accumulating the current
segment (in reverse) and closing it at each separator. -/
def splitCharAux (sep : Char) : List Char → List Char → List String
  | [], cur => [String.mk cur.reverse]
  | c :: cs, cur =>
    if c = sep then String.mk cur.reverse :: splitCharAux sep cs []
    else splitCharAux sep cs (c :: cur)

/-- JavaScript `string.split(sep)` for a one-character separator (the two
uses in `convertWordToPdf` split on a space and on a newline): consecutive
separators and boundary separators produce empty segments, and the empty
string yields one empty segment, as in JavaScript. -/
def splitChar (sep : Char) (s : String) : List String :=
  splitCharAux sep s.data []

/-- Inner word loop body of `convertWordToPdf` (lines 34–58): extend the
current line by the next word; when the extended line overflows `maxWidth`
and the current line is non-empty, draw the current line, advance the cursor
(with its page-break check) and start a new line with the word.  `widthOf`
models `font.widthOfTextAtSize(testLine, fontSize)`. -/
def wordStep (widthOf : String → ℚ) (acc : WState × String) (w : String) :
    WState × String :=
  let testLine := if acc.2 = "" then w else acc.2 ++ " " ++ w
  if maxWidth < widthOf testLine ∧ acc.2 ≠ "" then
    (advanceCursor (drawTextOp acc.1 acc.2), w)
  else
    (acc.1, testLine)

/-- Per-line body of `convertWordToPdf` (lines 29–77): word-wrap the line,
draw the remaining partial line if non-empty (advancing the cursor), then run
the standalone page-break check. -/
def processLine (widthOf : String → ℚ) (st : WState) (line : String) : WState :=
  let acc := (splitChar ' ' line).foldl (wordStep widthOf) (st, "")
  let st' := if acc.2 = "" then acc.1 else advanceCursor (drawTextOp acc.1 acc.2)
  pageBreakCheck st'

/-- The newline separator character of `text.split('\n')`. -/
def sepNl : Char := Char.ofNat 10

/-- convertWordToPdf (helpers file lines 2–81), modelling the layout loop:
splits the extracted text into lines and processes each in order.  The
Word-text extraction, font embedding and byte serialisation are external
effects that do not touch the cursor logic. -/
def convertWordToPdf (widthOf : String → ℚ) (text : String) : WState :=
  (splitChar sepNl text).foldl (processLine widthOf) initWState

/-! ## Lemmas about the Document Merger -/

lemma foldl_addPage (l : List Page) : ∀ d : PageDoc, l.foldl addPage d = ⟨d.pages ++ l⟩ := by
  induction l with
  | nil => intro d; simp
  | cons a l ih => intro d; simp [List.foldl_cons, ih, addPage]

lemma map_getD_range (l : List Page) :
    (List.range l.length).map (fun i => l.getD i defaultPage) = l := by
  induction l with
  | nil => simp
  | cons a l ih =>
    rw [List.length_cons, List.range_succ_eq_map, List.map_cons, List.map_map]
    have h : (fun i => (a :: l).getD i defaultPage) ∘ Nat.succ
        = fun i => l.getD i defaultPage := by
      funext i
      simp [Function.comp, List.getD_cons_succ]
    rw [h, List.getD_cons_zero, ih]

lemma copyPages_all (d : PageDoc) : copyPages d (getPageIndices d) = d.pages := by
  rw [copyPages, getPageIndices]
  exact map_getD_range d.pages

lemma mergePdfs_eq (A B : PageDoc) : mergePdfs A B = ⟨A.pages ++ B.pages⟩ := by
  simp [mergePdfs, copyPages_all, foldl_addPage]

/-- C4: the Document Merger produces a document whose page count is the sum
of the two inputs' page counts, whose first block of pages is the cover
document's page list (in order, contents and dimensions preserved) and whose
second block is the body document's page list.  The two inputs are modelled
as already-loaded `PageDoc` values (the claim's premise that both documents
parse). -/
theorem mergePdfs_concatenates_pages (A B : PageDoc) :
    pagesCount (mergePdfs A B) = pagesCount A + pagesCount B ∧
    (mergePdfs A B).pages.take (pagesCount A) = A.pages ∧
    (mergePdfs A B).pages.drop (pagesCount A) = B.pages := by
  rw [mergePdfs_eq]
  exact ⟨by simp [pagesCount], List.take_left A.pages B.pages, List.drop_left A.pages B.pages⟩

/-! ## Lemmas about the Highlight Compositor -/

lemma drawRectOnPage_length (d : PageDoc) (p : Nat) (rc : Rect) :
    (drawRectOnPage d p rc).pages.length = d.pages.length := by
  simp [drawRectOnPage]

lemma getD_set_self {α : Type} (l : List α) (i : Nat) (a d : α) (h : i < l.length) :
    (l.set i a).getD i d = a := by
  simp [List.getD_eq_getElem?_getD, List.getElem?_set_self, h]

lemma getD_set_ne {α : Type} (l : List α) (i j : Nat) (a d : α) (h : i ≠ j) :
    (l.set i a).getD j d = l.getD j d := by
  simp [List.getD_eq_getElem?_getD, List.getElem?_set_ne h]

lemma pageHeightAt_drawRect (d : PageDoc) (p : Nat) (rc : Rect) (q : Nat) :
    pageHeightAt (drawRectOnPage d p rc) q = pageHeightAt d q := by
  unfold pageHeightAt drawRectOnPage
  by_cases hpq : p = q
  · subst hpq
    by_cases hp : p < d.pages.length
    · rw [getD_set_self _ _ _ _ hp]
    · rw [List.set_eq_of_length_le (Nat.le_of_not_lt hp)]
  · rw [getD_set_ne _ _ _ _ _ hpq]

lemma pageRects_drawRect_self (d : PageDoc) (p : Nat) (rc : Rect) (h : p < d.pages.length) :
    pageRects (drawRectOnPage d p rc) p = pageRects d p ++ [rc] := by
  unfold pageRects drawRectOnPage
  rw [getD_set_self _ _ _ _ h]

lemma pageRects_drawRect_ne (d : PageDoc) (p : Nat) (rc : Rect) (q : Nat) (h : p ≠ q) :
    pageRects (drawRectOnPage d p rc) q = pageRects d q := by
  unfold pageRects drawRectOnPage
  rw [getD_set_ne _ _ _ _ _ h]

lemma addHighlightsToPdf_length (items : List TextItem) :
    ∀ d : PageDoc, (addHighlightsToPdf d items).pages.length = d.pages.length := by
  induction items with
  | nil => intro d; rfl
  | cons a items ih =>
    intro d
    rw [addHighlightsToPdf, List.foldl_cons]
    by_cases h : d.pages.length ≤ a.pageIndex
    · rw [if_pos h]
      exact ih d
    · rw [if_neg h]
      rw [show (List.foldl _ _ items : PageDoc) = addHighlightsToPdf
        (drawRectOnPage d a.pageIndex (mkHighlightRect (pageHeightAt d a.pageIndex) a)) items
        from rfl]
      rw [ih _, drawRectOnPage_length]

lemma addHighlightsToPdf_heightAt (items : List TextItem) :
    ∀ (d : PageDoc) (q : Nat),
      pageHeightAt (addHighlightsToPdf d items) q = pageHeightAt d q := by
  induction items with
  | nil => intro d q; rfl
  | cons a items ih =>
    intro d q
    rw [addHighlightsToPdf, List.foldl_cons]
    by_cases h : d.pages.length ≤ a.pageIndex
    · rw [if_pos h]
      exact ih d q
    · rw [if_neg h]
      rw [show (List.foldl _ _ items : PageDoc) = addHighlightsToPdf
        (drawRectOnPage d a.pageIndex (mkHighlightRect (pageHeightAt d a.pageIndex) a)) items
        from rfl]
      rw [ih _ q, pageHeightAt_drawRect]

lemma addHighlightsToPdf_pageRects (items : List TextItem) :
    ∀ (d : PageDoc) (p : Nat), p < d.pages.length →
      pageRects (addHighlightsToPdf d items) p =
        pageRects d p ++
          (items.filter (fun it => it.pageIndex == p)).map
            (fun it => mkHighlightRect (pageHeightAt d p) it) := by
  induction items with
  | nil => intro d p _; simp [addHighlightsToPdf]
  | cons a items ih =>
    intro d p hp
    rw [addHighlightsToPdf, List.foldl_cons]
    by_cases h : d.pages.length ≤ a.pageIndex
    · rw [if_pos h]
      have hne : ¬ ((a.pageIndex == p) = true) := by
        simp only [beq_iff_eq]
        intro e
        rw [e] at h
        exact absurd hp (Nat.not_lt.mpr h)
      rw [List.filter_cons, if_neg hne]
      exact ih d p hp
    · rw [if_neg h]
      have hstep : (List.foldl
          (fun d it => if d.pages.length ≤ it.pageIndex then d
            else drawRectOnPage d it.pageIndex (mkHighlightRect (pageHeightAt d it.pageIndex) it))
          (drawRectOnPage d a.pageIndex (mkHighlightRect (pageHeightAt d a.pageIndex) a)) items)
          = addHighlightsToPdf
            (drawRectOnPage d a.pageIndex (mkHighlightRect (pageHeightAt d a.pageIndex) a))
            items := rfl
      rw [hstep]
      have hp' : p < (drawRectOnPage d a.pageIndex
          (mkHighlightRect (pageHeightAt d a.pageIndex) a)).pages.length := by
        rw [drawRectOnPage_length]
        exact hp
      rw [ih _ p hp']
      by_cases hap : a.pageIndex = p
      · rw [List.filter_cons, if_pos (by simp [hap]), List.map_cons]
        rw [pageHeightAt_drawRect]
        subst hap
        rw [pageRects_drawRect_self d a.pageIndex _ (Nat.lt_of_not_le h)]
        simp
      · rw [List.filter_cons, if_neg (by simp [hap])]
        rw [pageHeightAt_drawRect]
        rw [pageRects_drawRect_ne d a.pageIndex _ p hap]

/-- Sample one-page document of height 842 (the value in the coordinate
reconciliation scenario of the spec). -/
def doc842 : PageDoc := ⟨[⟨595, 842, []⟩]⟩

/-- Sample fragment with top-left-origin coordinates `y = 10`, `height =
12`. -/
def item1012 : TextItem := ⟨"t", 50, 10, 120, 12, 0⟩

/-- C1: every rectangle the Highlight Compositor (`addHighlightsToPdf` of
`pdfHighlighter.ts`) draws for a selected fragment on a page in range is
`mkHighlightRect pageHeight item`, whose vertical coordinate is
`pageHeight - item.y - item.height` (the vertical-axis flip of the fragment's
extracted top-left-origin coordinates onto the bottom-left-origin page); in
particular a fragment with `y = 10`, `height = 12` on a page of height 842 is
drawn at `y = 820`. -/
theorem compositor_flips_vertical_axis (doc : PageDoc) (items : List TextItem) (p : Nat)
    (hp : p < doc.pages.length) :
    pageRects (addHighlightsToPdf doc items) p =
      pageRects doc p ++
        (items.filter (fun it => it.pageIndex == p)).map
          (fun it => mkHighlightRect (pageHeightAt doc p) it) ∧
    (∀ it : TextItem, (mkHighlightRect (pageHeightAt doc p) it).y
      = pageHeightAt doc p - it.y - it.height) ∧
    (mkHighlightRect (pageHeightAt doc842 0) item1012).y = 820 := by
  refine ⟨addHighlightsToPdf_pageRects items doc p hp, fun it => rfl, ?_⟩
  show (842 : ℚ) - 10 - 12 = 820
  norm_num

lemma doc842_pos : 0 < doc842.pages.length := by
  rw [doc842]
  exact Nat.zero_lt_one

/-- Witness for C1: the compositor applied to the one-page document of height
842 and the fragment `(y = 10, height = 12)` draws exactly the flipped
rectangle. -/
theorem compositor_flips_vertical_axis_witness :
    pageRects (addHighlightsToPdf doc842 [item1012]) 0 =
      [mkHighlightRect (pageHeightAt doc842 0) item1012] ∧
    (mkHighlightRect (pageHeightAt doc842 0) item1012).y = 820 := by
  have h := compositor_flips_vertical_axis doc842 [item1012] 0 doc842_pos
  refine ⟨?_, h.2.2⟩
  rw [h.1]
  rfl

/-! ## The Compositor's error fallback -/

/-- True when the modelled fallible operation threw. -/
def threw {α : Type} : Except String α → Bool
  | .error _ => true
  | .ok _ => false

/-- C2: the embedding of `highlightPdfText` is a total function into bytes
(exceptions of the underlying libraries are explicit `Except` values of the
environment, so nothing can propagate to the caller), and whenever the bytes
fail to load as a page-structured document or any step of the highlight
attempt throws, it returns the original input bytes unchanged. -/
theorem highlightPdfText_returns_original_on_failure (env : PdfEnv) (r : Nat → ℚ)
    (pdfBytes : Bytes) (percentage : ℚ)
    (h : threw (env.load pdfBytes) = true ∨
      threw (attemptHighlight env r pdfBytes percentage) = true) :
    highlightPdfText env r pdfBytes percentage = pdfBytes := by
  unfold highlightPdfText
  by_cases hp : percentage ≤ 0
  · rw [if_pos hp]
  · rw [if_neg hp]
    cases hload : env.load pdfBytes with
    | error e => rfl
    | ok d =>
      cases hatt : attemptHighlight env r pdfBytes percentage with
      | error e => rfl
      | ok out =>
        rw [hload, hatt] at h
        rcases h with h | h <;> exact absurd h (by simp [threw])

/-- Environment in which every external operation throws. -/
def envAllFail : PdfEnv :=
  ⟨fun _ => .error "malformed", fun _ => .error "malformed", fun _ => .error "malformed"⟩

/-- The all-zero random stream. -/
def r0 : Nat → ℚ := fun _ => 0

/-- Sample input bytes (`%PDF`). -/
def bytes0 : Bytes := [37, 80, 68, 70]

/-- Witness for C2: malformed bytes (an environment whose load throws) come
back unchanged. -/
theorem highlightPdfText_returns_original_on_failure_witness :
    threw (envAllFail.load bytes0) = true ∧
    highlightPdfText envAllFail r0 bytes0 50 = bytes0 :=
  ⟨rfl, highlightPdfText_returns_original_on_failure envAllFail r0 bytes0 50 (Or.inl rfl)⟩

/-! ## Lemmas about the chunk partition -/

lemma chunkLoop_flatten (r : Nat → ℚ) :
    ∀ (rest : List TextItem) (i : Nat) (cur : List TextItem), rest ≠ [] →
      (chunkLoop r i rest cur).flatten = cur ++ rest := by
  intro rest
  induction rest with
  | nil => intro i cur h; exact absurd rfl h
  | cons x rest' ih =>
    intro i cur _
    simp only [chunkLoop]
    by_cases hc : ((cur ++ [x]).length : ℤ) ≥ chunkSize r i ∨ rest' = []
    · rw [if_pos hc]
      rcases Decidable.em (rest' = []) with he | he
      · subst he
        simp [chunkLoop]
      · rw [List.flatten_cons, ih (i + 1) [] he]
        simp
    · rw [if_neg hc]
      have he : rest' ≠ [] := by
        intro e
        exact hc (Or.inr e)
      rw [ih (i + 1) (cur ++ [x]) he]
      simp

lemma buildChunks_flatten (r : Nat → ℚ) (textItems : List TextItem) (h : textItems ≠ []) :
    (buildChunks r textItems).flatten = textItems :=
  chunkLoop_flatten r textItems 0 [] h

lemma chunkSize_bounds (r : Nat → ℚ) (hr : ∀ i, 0 ≤ r i ∧ r i < 1) (i : Nat) :
    3 ≤ chunkSize r i ∧ chunkSize r i ≤ 10 := by
  unfold chunkSize
  constructor
  · have : (0 : ℤ) ≤ ⌊r i * 8⌋ :=
      Int.floor_nonneg.mpr (mul_nonneg (hr i).1 (by norm_num))
    omega
  · have : ⌊r i * 8⌋ < (8 : ℤ) := by
      rw [Int.floor_lt]
      calc r i * 8 < 1 * 8 := by
            exact mul_lt_mul_of_pos_right (hr i).2 (by norm_num)
        _ = ((8 : ℤ) : ℚ) := by norm_num
    omega

lemma chunkLoop_ne_nil (r : Nat → ℚ) :
    ∀ (rest : List TextItem) (i : Nat) (cur : List TextItem), rest ≠ [] →
      chunkLoop r i rest cur ≠ [] := by
  intro rest
  induction rest with
  | nil => intro i cur h; exact absurd rfl h
  | cons x rest' ih =>
    intro i cur _
    simp only [chunkLoop]
    by_cases hc : ((cur ++ [x]).length : ℤ) ≥ chunkSize r i ∨ rest' = []
    · rw [if_pos hc]
      exact List.cons_ne_nil _ _
    · rw [if_neg hc]
      exact ih (i + 1) _ (fun e => hc (Or.inr e))

lemma chunkLoop_sizes (r : Nat → ℚ) (hr : ∀ i, 0 ≤ r i ∧ r i < 1) :
    ∀ (rest : List TextItem) (i : Nat) (cur : List TextItem), cur.length ≤ 9 →
      (∀ c ∈ chunkLoop r i rest cur, 1 ≤ c.length ∧ c.length ≤ 10) ∧
      (∀ c ∈ (chunkLoop r i rest cur).dropLast, 3 ≤ c.length) := by
  intro rest
  induction rest with
  | nil =>
    intro i cur _
    constructor <;> simp [chunkLoop]
  | cons x rest' ih =>
    intro i cur hcur
    simp only [chunkLoop]
    have hlen10 : (cur ++ [x]).length ≤ 10 := by
      simp only [List.length_append, List.length_cons, List.length_nil]
      omega
    have hlen1 : 1 ≤ (cur ++ [x]).length := by
      simp only [List.length_append, List.length_cons, List.length_nil]
      omega
    by_cases hc : ((cur ++ [x]).length : ℤ) ≥ chunkSize r i ∨ rest' = []
    · rw [if_pos hc]
      rcases Decidable.em (rest' = []) with he | he
      · subst he
        constructor
        · intro c hcm
          rcases List.mem_cons.mp hcm with e | hm
          · subst e
            exact ⟨hlen1, hlen10⟩
          · simp [chunkLoop] at hm
        · intro c hcm
          simp [chunkLoop] at hcm
      · have ihr := ih (i + 1) [] (by simp)
        constructor
        · intro c hcm
          rcases List.mem_cons.mp hcm with e | hm
          · subst e
            exact ⟨hlen1, hlen10⟩
          · exact ihr.1 c hm
        · intro c hcm
          rw [List.dropLast_cons_of_ne_nil (chunkLoop_ne_nil r rest' (i + 1) [] he)] at hcm
          rcases List.mem_cons.mp hcm with e | hm
          · subst e
            have hge : ((cur ++ [x]).length : ℤ) ≥ chunkSize r i := by
              rcases hc with hge | he'
              · exact hge
              · exact absurd he' he
            have h3 := (chunkSize_bounds r hr i).1
            have : (3 : ℤ) ≤ ((cur ++ [x]).length : ℤ) := le_trans h3 hge
            exact_mod_cast this
          · exact ihr.2 c hm
    · rw [if_neg hc]
      have hlt : ((cur ++ [x]).length : ℤ) < chunkSize r i := by
        rcases lt_or_ge ((cur ++ [x]).length : ℤ) (chunkSize r i) with hlt | hge
        · exact hlt
        · exact absurd (Or.inl hge) hc
      have h10 := (chunkSize_bounds r hr i).2
      have hle9 : (cur ++ [x]).length ≤ 9 := by
        have : ((cur ++ [x]).length : ℤ) ≤ 9 := by omega
        exact_mod_cast this
      exact ih (i + 1) (cur ++ [x]) hle9

/-- C6 (amended): with every random value in `[0,1)`, every chunk of the
partition except possibly the last has between 3 and 10 fragments.  The
threshold `Math.floor(Math.random() * 8) + 3` is redrawn after every
fragment — once per fragment, not once per chunk as the claim states (see the
counterexample below) — but since every draw lies in `[3,10]`, a chunk can
neither close before reaching 3 fragments nor grow past 10. -/
theorem chunk_sizes_bounded (r : Nat → ℚ) (textItems : List TextItem)
    (hr : ∀ i, 0 ≤ r i ∧ r i < 1) :
    ((buildChunks r textItems).dropLast).all
      (fun c => decide (3 ≤ c.length ∧ c.length ≤ 10)) = true := by
  rw [List.all_eq_true]
  intro c hc
  rw [decide_eq_true_eq]
  have h := chunkLoop_sizes r hr textItems 0 [] (by simp)
  exact ⟨h.2 c hc, (h.1 c (List.mem_of_mem_dropLast hc)).2⟩

/-- The constant one-half random stream. -/
def rHalf : Nat → ℚ := fun _ => 1/2

lemma rHalf_bounds : ∀ i, 0 ≤ rHalf i ∧ rHalf i < 1 := by
  intro i
  constructor <;> norm_num [rHalf]

/-- A plain one-word fragment. -/
def itemW : TextItem := ⟨"w", 0, 0, 0, 0, 0⟩

/-- Twelve one-word fragments. -/
def items12 : List TextItem := List.replicate 12 itemW

/-- Witness for C6: a concrete stream satisfying the range hypothesis, with
the size bounds instantiated on twelve fragments. -/
theorem chunk_sizes_bounded_witness :
    ((buildChunks rHalf items12).dropLast).all
      (fun c => decide (3 ≤ c.length ∧ c.length ≤ 10)) = true :=
  chunk_sizes_bounded rHalf items12 rHalf_bounds

/-- Random stream whose first value is 1/4 (threshold 5) and whose later
values are 0 (threshold 3). -/
def r14 : Nat → ℚ := fun i => if i = 0 then 1/4 else 0

lemma chunkSize_r14 (i : Nat) : chunkSize r14 i = if i = 0 then 5 else 3 := by
  by_cases h : i = 0
  · rw [if_pos h, h]
    unfold chunkSize r14
    norm_num
  · rw [if_neg h]
    unfold chunkSize r14
    rw [if_neg h]
    norm_num

/-- Five one-word fragments. -/
def items5 : List TextItem := List.replicate 5 itemW

lemma buildChunks_r14_items5 :
    buildChunks r14 items5 = [[itemW, itemW, itemW], [itemW, itemW]] := by
  simp [buildChunks, items5, List.replicate, chunkLoop, chunkSize_r14]

lemma specBuildChunks_r14_items5 :
    specBuildChunks r14 items5 = [[itemW, itemW, itemW, itemW, itemW]] := by
  simp [specBuildChunks, items5, List.replicate, specChunkLoop, chunkSize_r14]

/-- Counterexample for C6: with the first draw prescribing a threshold of 5
and all later draws a threshold of 3, the code closes its first chunk after 3
fragments (the threshold was redrawn at the second and third fragment), while
a partition that draws the threshold once per chunk would close it after 5.
So the threshold is not "redrawn once per chunk (not more often)". -/
theorem chunk_threshold_redrawn_per_fragment :
    buildChunks r14 items5 ≠ specBuildChunks r14 items5 ∧
    (buildChunks r14 items5).map List.length = [3, 2] ∧
    (specBuildChunks r14 items5).map List.length = [5] := by
  refine ⟨?_, ?_, ?_⟩
  · rw [buildChunks_r14_items5, specBuildChunks_r14_items5]
    intro e
    have h := congrArg List.length e
    simp at h
  · rw [buildChunks_r14_items5]
    rfl
  · rw [specBuildChunks_r14_items5]
    rfl

/-! ## The shuffle is a permutation of the index list -/

lemma insRev_perm (r : Nat → ℚ) (x : Nat) :
    ∀ (l : List Nat) (k : Nat), (insRev r x l k).1.Perm (x :: l) := by
  intro l
  induction l with
  | nil => intro k; simp [insRev]
  | cons y ys ih =>
    intro k
    simp only [insRev]
    by_cases hc : sortCmpCoin r k = true
    · rw [if_pos hc]
      show (y :: (insRev r x ys (k + 1)).1 : List Nat).Perm (x :: y :: ys)
      exact List.Perm.trans ((ih (k + 1)).cons y) (List.Perm.swap x y ys)
    · rw [if_neg hc]

lemma sortLoop_perm (r : Nat → ℚ) :
    ∀ (rest acc : List Nat) (k : Nat), (sortLoop r acc rest k).Perm (acc ++ rest) := by
  intro rest
  induction rest with
  | nil =>
    intro acc k
    rw [sortLoop, List.append_nil]
    exact acc.reverse_perm
  | cons x rest' ih =>
    intro acc k
    simp only [sortLoop]
    refine List.Perm.trans (ih _ _) (List.Perm.trans ?_ List.perm_middle.symm)
    exact (insRev_perm r x acc k).append_right rest'

lemma jsSortRand_perm (r : Nat → ℚ) (off : Nat) (l : List Nat) :
    (jsSortRand r off l).Perm l := by
  simpa [jsSortRand] using sortLoop_perm r l [] off

lemma jsSortRand_range_nodup (r : Nat → ℚ) (off n : Nat) :
    (jsSortRand r off (List.range n)).Nodup :=
  ((jsSortRand_perm r off (List.range n)).nodup_iff).mpr (List.nodup_range n)

lemma jsSortRand_range_lt (r : Nat → ℚ) (off n : Nat) :
    ∀ i ∈ jsSortRand r off (List.range n), i < n := by
  intro i hi
  have := ((jsSortRand_perm r off (List.range n)).mem_iff).mp hi
  exact List.mem_range.mp this

/-! ## Counting fragments through the selection -/

lemma count_flatten_sum {α : Type} [DecidableEq α] (x : α) :
    ∀ L : List (List α), (L.flatten).count x = (L.map (fun c => c.count x)).sum := by
  intro L
  induction L with
  | nil => simp
  | cons c L ih => simp [List.count_append, ih]

lemma sum_range_getD {α : Type} (g : List α → ℕ) :
    ∀ cs : List (List α),
      (∑ i ∈ Finset.range cs.length, g (cs.getD i [])) = (cs.map g).sum := by
  intro cs
  induction cs with
  | nil => simp
  | cons c cs ih =>
    rw [List.length_cons, Finset.sum_range_succ']
    simp only [List.getD_cons_succ, List.getD_cons_zero, List.map_cons, List.sum_cons]
    rw [ih]
    omega

lemma count_flatten_map_getD_le {α : Type} [DecidableEq α] (cs : List (List α))
    (idxs : List Nat) (hnd : idxs.Nodup) (hlt : ∀ i ∈ idxs, i < cs.length) (x : α) :
    ((idxs.map (fun i => cs.getD i [])).flatten).count x ≤ (cs.flatten).count x := by
  rw [count_flatten_sum, count_flatten_sum, List.map_map]
  rw [show ((fun c : List α => c.count x) ∘ fun i => cs.getD i [])
      = fun i => (cs.getD i []).count x from rfl]
  rw [← List.sum_toFinset _ hnd, ← sum_range_getD (fun c => c.count x) cs]
  apply Finset.sum_le_sum_of_subset
  intro i hi
  rw [Finset.mem_range]
  exact hlt i (List.mem_toFinset.mp hi)

lemma selectRandomChunks_eq (r : Nat → ℚ) (textItems : List TextItem) (percentage : ℚ)
    (h : ¬ (percentage ≤ 0 ∨ textItems = [])) :
    selectRandomChunks r textItems percentage =
      (((jsSortRand r textItems.length
          (List.range (buildChunks r textItems).length)).take
            (selTake r textItems percentage)).map
        (fun i => (buildChunks r textItems).getD i [])).flatten := by
  rw [selectRandomChunks, if_neg h]

/-- C9: no input fragment occurs in the Sampler's output more often than in
its input: the chunks partition the input, the shuffled index list is a
permutation of the chunk indices (hence duplicate-free), and at most
`min(chunksToHighlight, numChunks)` distinct chunks are concatenated, so
every occurrence of the output comes from a distinct occurrence of the
input. -/
theorem sampler_no_duplication (r : Nat → ℚ) (textItems : List TextItem) (percentage : ℚ)
    (x : TextItem) :
    (selectRandomChunks r textItems percentage).count x ≤ textItems.count x := by
  by_cases h : percentage ≤ 0 ∨ textItems = []
  · rw [selectRandomChunks, if_pos h]
    simp
  · rw [selectRandomChunks_eq r textItems percentage h]
    have hne : textItems ≠ [] := (not_or.mp h).2
    have hcount := count_flatten_map_getD_le (buildChunks r textItems)
      ((jsSortRand r textItems.length
        (List.range (buildChunks r textItems).length)).take
          (selTake r textItems percentage))
      (List.Nodup.sublist (List.take_sublist _ _)
        (jsSortRand_range_nodup r textItems.length (buildChunks r textItems).length))
      (fun i hi => jsSortRand_range_lt r textItems.length (buildChunks r textItems).length i
        (List.mem_of_mem_take hi))
      x
    rw [buildChunks_flatten r textItems hne] at hcount
    exact hcount

/-- C8: every fragment of the Sampler's output is an element of the input
list.  Fragments are immutable values in this model, so a retained fragment's
fields (text, pageIndex, x, y, width, height) are exactly its original
ones — the Sampler never mutates or fabricates fragments. -/
theorem sampler_output_subset (r : Nat → ℚ) (textItems : List TextItem) (percentage : ℚ)
    (x : TextItem) (hx : x ∈ selectRandomChunks r textItems percentage) :
    x ∈ textItems := by
  have h1 : 0 < (selectRandomChunks r textItems percentage).count x :=
    List.count_pos_iff.mpr hx
  have h2 := sampler_no_duplication r textItems percentage x
  exact List.count_pos_iff.mp (lt_of_lt_of_le h1 h2)

/-- C7: for every percentage at most 0, and for every percentage when the
fragment list is empty, the Sampler returns the empty selection, and the
result does not depend on the random source (the guard returns before any
randomness is consumed). -/
theorem sampler_empty_and_deterministic_on_guard (r1 r2 : Nat → ℚ)
    (textItems : List TextItem) (percentage : ℚ)
    (h : percentage ≤ 0 ∨ textItems = []) :
    selectRandomChunks r1 textItems percentage = [] ∧
    selectRandomChunks r1 textItems percentage =
      selectRandomChunks r2 textItems percentage := by
  constructor
  · rw [selectRandomChunks, if_pos h]
  · rw [selectRandomChunks, if_pos h, selectRandomChunks, if_pos h]

/-- Witness for C7: percentage 0 on a non-empty fragment list, under two
different random sources. -/
theorem sampler_empty_and_deterministic_on_guard_witness :
    ((0 : ℚ) ≤ 0 ∨ items5 = []) ∧
    selectRandomChunks r0 items5 0 = [] ∧
    selectRandomChunks r0 items5 0 = selectRandomChunks rHalf items5 0 :=
  ⟨Or.inl (le_refl 0),
    (sampler_empty_and_deterministic_on_guard r0 rHalf items5 0 (Or.inl (le_refl 0))).1,
    (sampler_empty_and_deterministic_on_guard r0 rHalf items5 0 (Or.inl (le_refl 0))).2⟩

/-! ## A concrete run of the Sampler -/

lemma chunkSize_r0 (i : Nat) : chunkSize r0 i = 3 := by
  unfold chunkSize r0
  norm_num

lemma sortCmpCoin_r0 (k : Nat) : sortCmpCoin r0 k = false := by
  unfold sortCmpCoin r0
  norm_num

lemma buildChunks_r0_items5 :
    buildChunks r0 items5 = [[itemW, itemW, itemW], [itemW, itemW]] := by
  simp [buildChunks, items5, List.replicate, chunkLoop, chunkSize_r0]

lemma calculateWordCount_items5 : calculateWordCount items5 = 5 := by decide

lemma chunksToHighlightOf_r0_items5 : chunksToHighlightOf r0 items5 50 = 1 := by
  unfold chunksToHighlightOf avgWordsPerChunk wordsToHighlightOf
  rw [calculateWordCount_items5, buildChunks_r0_items5]
  simp only [List.length_cons, List.length_nil]
  rw [Int.ceil_eq_iff]
  norm_num

lemma selTake_r0_items5 : selTake r0 items5 50 = 1 := by
  unfold selTake
  rw [chunksToHighlightOf_r0_items5, buildChunks_r0_items5]
  rfl

lemma jsSortRand_r0_range2 : jsSortRand r0 5 (List.range 2) = [0, 1] := by
  simp [jsSortRand, List.range_succ, sortLoop, insRev, sortCmpCoin_r0]

lemma select_r0_items5 : selectRandomChunks r0 items5 50 = [itemW, itemW, itemW] := by
  rw [selectRandomChunks_eq r0 items5 50 (by norm_num [items5])]
  rw [buildChunks_r0_items5, selTake_r0_items5]
  rw [show items5.length = 5 from rfl]
  simp only [List.length_cons, List.length_nil, Nat.zero_add]
  rw [jsSortRand_r0_range2]
  rfl

/-- Witness for C8: a fragment of a concrete non-trivial selection is an
element of the input list. -/
theorem sampler_output_subset_witness :
    itemW ∈ selectRandomChunks r0 items5 50 ∧ itemW ∈ items5 :=
  ⟨by simp [select_r0_items5],
    sampler_output_subset r0 items5 50 itemW (by simp [select_r0_items5])⟩

/-! ## The Sampler's word-count tolerance -/

lemma calculateWordCount_nil : calculateWordCount [] = 0 := rfl

/-- C5 (amended): the Sampler's chunk budget tracks the target in units of
the average chunk: `chunksToHighlight = ceil(wordsToHighlight /
avgWordsPerChunk)` satisfies `(chunksToHighlight - 1) * avgWordsPerChunk <
wordsToHighlight ≤ chunksToHighlight * avgWordsPerChunk`, i.e. the idealised
word total of the chosen number of chunks overshoots the target by less than
one average chunk's word count.  The realised word count of the randomly
selected chunks is not bounded by any single chunk's word count (see the
counterexample below). -/
theorem sampler_chunk_budget_tracks_target (r : Nat → ℚ) (textItems : List TextItem)
    (percentage : ℚ) (hw : 0 < calculateWordCount textItems) :
    ((chunksToHighlightOf r textItems percentage : ℚ) - 1) * avgWordsPerChunk r textItems
        < (wordsToHighlightOf textItems percentage : ℚ) ∧
    (wordsToHighlightOf textItems percentage : ℚ)
        ≤ (chunksToHighlightOf r textItems percentage : ℚ) * avgWordsPerChunk r textItems := by
  have hne : textItems ≠ [] := by
    intro e
    rw [e, calculateWordCount_nil] at hw
    exact Nat.lt_irrefl 0 hw
  have hn : 0 < (buildChunks r textItems).length :=
    List.length_pos.mpr (chunkLoop_ne_nil r textItems 0 [] hne)
  have havg : 0 < avgWordsPerChunk r textItems := by
    unfold avgWordsPerChunk
    apply div_pos
    · exact_mod_cast hw
    · exact_mod_cast hn
  have h1 : (chunksToHighlightOf r textItems percentage : ℚ)
      < (wordsToHighlightOf textItems percentage : ℚ) / avgWordsPerChunk r textItems + 1 := by
    rw [chunksToHighlightOf]
    exact_mod_cast Int.ceil_lt_add_one
      ((wordsToHighlightOf textItems percentage : ℚ) / avgWordsPerChunk r textItems)
  have h2 : (wordsToHighlightOf textItems percentage : ℚ) / avgWordsPerChunk r textItems
      ≤ (chunksToHighlightOf r textItems percentage : ℚ) := by
    rw [chunksToHighlightOf]
    exact_mod_cast Int.le_ceil
      ((wordsToHighlightOf textItems percentage : ℚ) / avgWordsPerChunk r textItems)
  constructor
  · have hlt : (chunksToHighlightOf r textItems percentage : ℚ) - 1
        < (wordsToHighlightOf textItems percentage : ℚ) / avgWordsPerChunk r textItems := by
      linarith
    calc ((chunksToHighlightOf r textItems percentage : ℚ) - 1) * avgWordsPerChunk r textItems
        < ((wordsToHighlightOf textItems percentage : ℚ) / avgWordsPerChunk r textItems)
            * avgWordsPerChunk r textItems := by
          exact mul_lt_mul_of_pos_right hlt havg
      _ = (wordsToHighlightOf textItems percentage : ℚ) :=
          div_mul_cancel₀ _ (ne_of_gt havg)
  · exact (div_le_iff₀ havg).mp h2

lemma wordCount_items5_pos : 0 < calculateWordCount items5 := by decide

/-- Witness for C5 (amended): the concrete run on five one-word fragments at
fifty percent. -/
theorem sampler_chunk_budget_tracks_target_witness :
    0 < calculateWordCount items5 ∧
    (((chunksToHighlightOf r0 items5 50 : ℚ) - 1) * avgWordsPerChunk r0 items5
        < (wordsToHighlightOf items5 50 : ℚ) ∧
      (wordsToHighlightOf items5 50 : ℚ)
        ≤ (chunksToHighlightOf r0 items5 50 : ℚ) * avgWordsPerChunk r0 items5) :=
  ⟨wordCount_items5_pos,
    sampler_chunk_budget_tracks_target r0 items5 50 wordCount_items5_pos⟩

/-- Builder for a fragment that carries only text. -/
def itemT (t : String) : TextItem := ⟨t, 0, 0, 0, 0, 0⟩

/-- Thirty fragments: two initial ten-word groups of three fragments each,
followed by twenty-four empty-text fragments. -/
def items30 : List TextItem :=
  [itemT "w w w w", itemT "w w w", itemT "w w w",
    itemT "w w w w", itemT "w w w", itemT "w w w"] ++
    List.replicate 24 (itemT "")

lemma calculateWordCount_items30 : calculateWordCount items30 = 20 := by decide

lemma buildChunks_r0_items30 :
    buildChunks r0 items30 =
      [[itemT "w w w w", itemT "w w w", itemT "w w w"],
        [itemT "w w w w", itemT "w w w", itemT "w w w"]] ++
        List.replicate 8 [itemT "", itemT "", itemT ""] := by
  simp [buildChunks, items30, List.replicate, chunkLoop, chunkSize_r0]

lemma wordsToHighlightOf_items30 : wordsToHighlightOf items30 15 = 3 := by
  unfold wordsToHighlightOf
  rw [calculateWordCount_items30]
  norm_num

lemma chunksToHighlightOf_r0_items30 : chunksToHighlightOf r0 items30 15 = 2 := by
  unfold chunksToHighlightOf avgWordsPerChunk
  rw [wordsToHighlightOf_items30, calculateWordCount_items30, buildChunks_r0_items30]
  simp only [List.length_append, List.length_cons, List.length_nil, List.length_replicate]
  rw [Int.ceil_eq_iff]
  norm_num

lemma selTake_r0_items30 : selTake r0 items30 15 = 2 := by
  unfold selTake
  rw [chunksToHighlightOf_r0_items30, buildChunks_r0_items30]
  rfl

lemma sortLoop_r0 : ∀ (rest acc : List Nat) (k : Nat),
    sortLoop r0 acc rest k = acc.reverse ++ rest := by
  intro rest
  induction rest with
  | nil =>
    intro acc k
    rw [sortLoop, List.append_nil]
  | cons x rest' ih =>
    intro acc k
    rcases acc with _ | ⟨y, ys⟩
    · rw [sortLoop]
      rw [show insRev r0 x [] k = ([x], k) from rfl]
      rw [ih [x] k]
      rfl
    · rw [sortLoop]
      rw [show insRev r0 x (y :: ys) k = (x :: y :: ys, k + 1) by
        simp [insRev, sortCmpCoin_r0]]
      rw [ih (x :: y :: ys) (k + 1)]
      simp

lemma jsSortRand_r0 (off : Nat) (l : List Nat) : jsSortRand r0 off l = l := by
  rw [jsSortRand, sortLoop_r0]
  rfl

lemma select_r0_items30 :
    selectRandomChunks r0 items30 15 =
      [itemT "w w w w", itemT "w w w", itemT "w w w",
        itemT "w w w w", itemT "w w w", itemT "w w w"] := by
  rw [selectRandomChunks_eq r0 items30 15
    (not_or.mpr ⟨by norm_num, by simp [items30]⟩)]
  rw [buildChunks_r0_items30, selTake_r0_items30, jsSortRand_r0]
  rfl

/-- Counterexample for C5: on thirty fragments whose chunks carry word counts
`[10, 10, 0, 0, 0, 0, 0, 0, 0, 0]` and with a random source that leaves the
shuffle in place, percentage 15 yields a target of 3 words but a selection of
20 words.  The deviation (17) exceeds every chunk's word count (at most 10),
so the selection does not stay within one chunk's word count of the
target. -/
theorem sampler_tolerance_counterexample :
    wordsToHighlightOf items30 15 = 3 ∧
    (buildChunks r0 items30).map calculateWordCount =
      [10, 10, 0, 0, 0, 0, 0, 0, 0, 0] ∧
    calculateWordCount (selectRandomChunks r0 items30 15) = 20 ∧
    ¬ ((calculateWordCount (selectRandomChunks r0 items30 15) : ℤ)
        - wordsToHighlightOf items30 15 ≤ 10) := by
  refine ⟨wordsToHighlightOf_items30, ?_, ?_, ?_⟩
  · rw [buildChunks_r0_items30]
    decide
  · rw [select_r0_items30]
    decide
  · rw [select_r0_items30, wordsToHighlightOf_items30]
    decide

/-! ## The comparator shuffle is not uniform -/

lemma insRev_eq_B (r : Nat → ℚ) (x : Nat) :
    ∀ (l : List Nat) (k : Nat), insRev r x l k = insRevB (sortCmpCoin r) x l k := by
  intro l
  induction l with
  | nil => intro k; rfl
  | cons y ys ih =>
    intro k
    rw [insRev, insRevB, ih (k + 1)]

lemma sortLoop_eq_B (r : Nat → ℚ) :
    ∀ (rest acc : List Nat) (k : Nat),
      sortLoop r acc rest k = sortLoopB (sortCmpCoin r) acc rest k := by
  intro rest
  induction rest with
  | nil => intro acc k; rfl
  | cons x rest' ih =>
    intro acc k
    rw [sortLoop, sortLoopB, insRev_eq_B, ih]

lemma jsSortRand_eq_B (r : Nat → ℚ) (off : Nat) (l : List Nat) :
    jsSortRand r off l = jsSortRandB (sortCmpCoin r) off l := by
  rw [jsSortRand, jsSortRandB, sortLoop_eq_B]

/-- Random stream realising a given pattern of comparator signs: value `3/4`
(comparator result `+1/4`, positive) for `true`, value `1/4` (comparator
result `-1/4`, negative) for `false`.  Under an ideal uniform source each
comparator call is positive with probability `1/2` independently, so each of
the `2^3` sign patterns of a three-comparison run has probability `1/8`. -/
def coinStream (t : List Bool) : Nat → ℚ :=
  fun k => if t.getD k false then 3/4 else 1/4

lemma sortCmpCoin_coinStream (t : List Bool) (k : Nat) :
    sortCmpCoin (coinStream t) k = t.getD k false := by
  by_cases h : t.getD k false
  · rw [sortCmpCoin, coinStream, h, if_pos rfl]
    norm_num
  · rw [sortCmpCoin, coinStream]
    rw [if_neg h, Bool.eq_false_iff.mpr h]
    norm_num

/-- All eight sign patterns of the at most three comparator calls made while
sorting a three-element array. -/
def allBoolTriples : List (List Bool) :=
  [[false, false, false], [false, false, true], [false, true, false],
    [false, true, true], [true, false, false], [true, false, true],
    [true, true, false], [true, true, true]]

/-- Number of the eight equiprobable sign patterns under which the code's
shuffle of the chunk-index list `[0, 1, 2]` produces the permutation `p`. -/
def permCountJs (p : List Nat) : Nat :=
  (allBoolTriples.filter
    (fun t => jsSortRand (coinStream t) 0 [0, 1, 2] == p)).length

lemma permCountJs_eval (p : List Nat) :
    permCountJs p = (allBoolTriples.filter
      (fun t => jsSortRandB (fun k => t.getD k false) 0 [0, 1, 2] == p)).length := by
  unfold permCountJs
  congr 1
  apply List.filter_congr
  intro t _
  rw [jsSortRand_eq_B]
  congr 2
  funext k
  exact sortCmpCoin_coinStream t k

/-- C3 is a code bug: the Sampler shuffles the chunk indices with
`sort(() => Math.random() - 0.5)`, and that shuffle is not uniform.  With
three chunk indices the eight equiprobable comparator-sign patterns produce
the identity permutation twice (probability `1/4`) but `[0, 2, 1]` only once
(probability `1/8`), so not every permutation has probability `1/6`; indeed
no outcome probability of any bounded fair-coin procedure is `1/6`, since all
are dyadic. -/
theorem shuffle_not_uniform :
    permCountJs [0, 1, 2] = 2 ∧ permCountJs [0, 2, 1] = 1 ∧
    permCountJs [0, 1, 2] ≠ permCountJs [0, 2, 1] := by
  rw [permCountJs_eval, permCountJs_eval]
  refine ⟨?_, ?_, ?_⟩ <;> decide

/-! ## The re-flow cursor invariant -/

/-- Invariant of the `convertWordToPdf` loop: every draw so far happened with
the cursor between the margins, and the cursor currently is between the
margins. -/
def wInv (st : WState) : Prop :=
  (∀ op ∈ st.ops, margin ≤ op.y ∧ op.y ≤ pageHeight - margin) ∧
  margin ≤ st.y ∧ st.y ≤ pageHeight - margin

lemma wInv_init : wInv initWState := by
  refine ⟨?_, ?_, ?_⟩
  · intro op hop
    simp [initWState] at hop
  · norm_num [initWState, margin, pageHeight]
  · exact le_refl _

lemma wInv_drawTextOp (st : WState) (t : String) (h : wInv st) : wInv (drawTextOp st t) := by
  obtain ⟨hops, hy1, hy2⟩ := h
  refine ⟨?_, hy1, hy2⟩
  intro op hop
  rw [drawTextOp] at hop
  rcases List.mem_append.mp hop with hm | hm
  · exact hops op hm
  · rw [List.mem_singleton.mp hm]
    exact ⟨hy1, hy2⟩

lemma wInv_advanceCursor (st : WState) (h : wInv st) : wInv (advanceCursor st) := by
  obtain ⟨hops, hy1, hy2⟩ := h
  rw [advanceCursor]
  by_cases hc : st.y - lineHeight < margin
  · rw [if_pos hc]
    exact ⟨hops, by norm_num [margin, pageHeight], le_refl _⟩
  · rw [if_neg hc]
    refine ⟨hops, le_of_not_lt hc, ?_⟩
    show st.y - lineHeight ≤ pageHeight - margin
    have hlh : (0 : ℚ) ≤ lineHeight := by norm_num [lineHeight]
    linarith

lemma wInv_pageBreakCheck (st : WState) (h : wInv st) : wInv (pageBreakCheck st) := by
  obtain ⟨hops, hy1, hy2⟩ := h
  rw [pageBreakCheck]
  by_cases hc : st.y < margin
  · rw [if_pos hc]
    exact ⟨hops, by norm_num [margin, pageHeight], le_refl _⟩
  · rw [if_neg hc]
    exact ⟨hops, hy1, hy2⟩

lemma wInv_wordStep (widthOf : String → ℚ) (acc : WState × String) (w : String)
    (h : wInv acc.1) : wInv (wordStep widthOf acc w).1 := by
  simp only [wordStep]
  by_cases hc : maxWidth < widthOf (if acc.2 = "" then w else acc.2 ++ " " ++ w) ∧ acc.2 ≠ ""
  · rw [if_pos hc]
    exact wInv_advanceCursor _ (wInv_drawTextOp _ _ h)
  · rw [if_neg hc]
    exact h

lemma wInv_foldl_wordStep (widthOf : String → ℚ) :
    ∀ (words : List String) (acc : WState × String), wInv acc.1 →
      wInv (words.foldl (wordStep widthOf) acc).1 := by
  intro words
  induction words with
  | nil => intro acc h; exact h
  | cons w words ih =>
    intro acc h
    rw [List.foldl_cons]
    exact ih _ (wInv_wordStep widthOf acc w h)

lemma wInv_processLine (widthOf : String → ℚ) (st : WState) (line : String)
    (h : wInv st) : wInv (processLine widthOf st line) := by
  simp only [processLine]
  apply wInv_pageBreakCheck
  have hacc := wInv_foldl_wordStep widthOf (splitChar (Char.ofNat 32) line) (st, "") h
  by_cases hc : ((splitChar (Char.ofNat 32) line).foldl (wordStep widthOf) (st, "")).2 = ""
  · rw [if_pos hc]
    exact hacc
  · rw [if_neg hc]
    exact wInv_advanceCursor _ (wInv_drawTextOp _ _ hacc)

lemma wInv_convert (widthOf : String → ℚ) (text : String) :
    wInv (convertWordToPdf widthOf text) := by
  rw [convertWordToPdf]
  have h : ∀ (lines : List String) (st : WState), wInv st →
      wInv (lines.foldl (processLine widthOf) st) := by
    intro lines
    induction lines with
    | nil => intro st h; exact h
    | cons l lines ih =>
      intro st h
      rw [List.foldl_cons]
      exact ih _ (wInv_processLine widthOf st l h)
  exact h _ _ wInv_init

/-- C10: in the word-processor re-flow, every text-draw operation happens
with the vertical cursor between the bottom and top margins
(`margin ≤ y ≤ pageHeight - margin`), because the cursor is checked and reset
to a fresh page immediately after each line advance (inside the word-wrap
branch and after the flush of the remaining line). -/
theorem convertWordToPdf_draws_within_margins (widthOf : String → ℚ) (text : String) :
    ((convertWordToPdf widthOf text).ops).all
      (fun op => decide (margin ≤ op.y ∧ op.y ≤ pageHeight - margin)) = true := by
  rw [List.all_eq_true]
  intro op hop
  rw [decide_eq_true_eq]
  exact (wInv_convert widthOf text).1 op hop
